import Mathlib

/-!
Verification of the bor milestone finality-tracking and reorg-guard subsystem
(`core/rawdb/milestone.go`, packages `rawdb` and `whitelist`).

The persistence layer is modelled over an abstract key-value store: a store is an
association list from string keys to tagged encoded values; `storePut` prepends and
`storeGet` takes the first match, so a put overwrites.  Serialization is modelled
abstractly by the tag: a value encoded from a `Finality` record decodes only as a
`Finality` record; `StoreVal.empty` stands for a present key with zero-length data and
`StoreVal.garbage` for stored bytes that fail to decode.  Hashes (`common.Hash`) are
modelled as natural numbers; only equality of hashes is ever used by the code.
-/

namespace Bor

/-- A block header, reduced to the two fields the milestone code reads:
its height (`Number.Uint64()`) and its hash (`Hash()`). -/
structure Header where
  number : Nat
  hash : Nat
deriving DecidableEq, Repr

/-- An encoded value stored in the key-value store. -/
inductive StoreVal where
  | empty : StoreVal
  | finalityEnc (block : Nat) (hash : Nat) : StoreVal
  | lockEnc (val : Bool) (block : Nat) (hash : Nat) (idList : Finset String) : StoreVal
  | garbage : StoreVal
deriving DecidableEq

/-- The key-value store: an association list, first match wins. -/
abbrev Store := List (String × StoreVal)

/-- Fetch a key (`db.Get`); `none` models the store's not-found error. -/
def storeGet (db : Store) (key : String) : Option StoreVal :=
  (db.find? (fun kv => kv.1 == key)).map (fun kv => kv.2)

/-- Write a key (`db.Put`); prepending overwrites under `storeGet`. -/
def storePut (db : Store) (key : String) (v : StoreVal) : Store :=
  (key, v) :: db

/-- The record variant, `Milestone` or `Checkpoint` (`getKey` dispatch). -/
inductive FinalityVariant where
  | milestone : FinalityVariant
  | checkpoint : FinalityVariant
deriving DecidableEq

/-- The fixed storage key of a variant (`lastMilestone` / `lastCheckpoint`). -/
def variantKey : FinalityVariant → String
  | .milestone => "LastMilestone"
  | .checkpoint => "LastCheckpoint"

/-- Errors of the finality read path: `notFound` is the store's own error for an
absent key, `emptyValue` is `ErrEmptyLastFinality`, `corrupt` is `ErrIncorrectFinality`. -/
inductive ReadError where
  | notFound : ReadError
  | emptyValue : ReadError
  | corrupt : ReadError
deriving DecidableEq

/-- The spec's `NotFound` class groups the absent-key error and the empty-value error. -/
def ReadError.isNotFoundClass : ReadError → Bool
  | .notFound => true
  | .emptyValue => true
  | .corrupt => false

/-- `ReadFinality[T]`: fetch the variant's fixed key, fail `notFound` when absent,
`emptyValue` when the data has length zero, `corrupt` when it does not decode as a
finality record, else return `(block, hash)`. -/
def ReadFinality (db : Store) (v : FinalityVariant) : Except ReadError (Nat × Nat) :=
  match storeGet db (variantKey v) with
  | none => .error .notFound
  | some .empty => .error .emptyValue
  | some (.finalityEnc b h) => .ok (b, h)
  | some (.lockEnc _ _ _ _) => .error .corrupt
  | some .garbage => .error .corrupt

/-- `WriteLastFinality[T]`: encode `(block, hash)` and put it under the variant's fixed
key.  Marshalling a finality record cannot fail and the modelled store's put always
succeeds, so the error paths of the source are unreachable in the model. -/
def WriteLastFinality (db : Store) (v : FinalityVariant) (block : Nat) (hash : Nat) : Store :=
  storePut db (variantKey v) (.finalityEnc block hash)

/-- `WriteLockField`: encode the lock-field record and put it under `lockFieldKey`. -/
def WriteLockField (db : Store) (val : Bool) (block : Nat) (hash : Nat)
    (idListMap : Finset String) : Store :=
  storePut db "LockField" (.lockEnc val block hash idListMap)

/-- The in-memory state of the milestone guard: the embedded finality record
(`doExist`, `Number`, `Hash`), the sprint-lock fields of `whitelist.milestone`, and the
key-value store the guard persists into.  The mutex itself is not modelled: every
operation below is one complete critical section. -/
structure MilestoneState where
  doExist : Bool
  Number : Nat
  Hash : Nat
  LockedSprintNumber : Nat
  LockedSprintHash : Nat
  Locked : Bool
  LockedMilestoneIDs : Finset String
  db : Store
deriving DecidableEq

/-- `purgeMilestoneIDsList`: reset the identifier set to a fresh empty map. -/
def purgeMilestoneIDsList (s : MilestoneState) : MilestoneState :=
  { s with LockedMilestoneIDs := ∅ }

/-- `milestone.UnlockSprint`: no-op when `endBlockNum < m.LockedSprintNumber`;
otherwise clear `Locked`, purge the identifier set, and persist the lock field. -/
def UnlockSprint (s : MilestoneState) (endBlockNum : Nat) : MilestoneState :=
  if endBlockNum < s.LockedSprintNumber then
    s
  else
    let s1 := purgeMilestoneIDsList { s with Locked := false }
    { s1 with db := WriteLockField s1.db s1.Locked s1.LockedSprintNumber
                      s1.LockedSprintHash s1.LockedMilestoneIDs }

/-- `milestone.LockMutex`: reject a candidate at or below an existing finalized
record; when locked at a different boundary, reject an older one and clear the old
lock (via `UnlockSprint` at the old boundary) for a newer one; adopt `endBlockNum` as
the locked sprint number in every non-rejected path. -/
def LockMutex (s : MilestoneState) (endBlockNum : Nat) : Bool × MilestoneState :=
  if s.doExist ∧ endBlockNum ≤ s.Number then
    (false, s)
  else if s.Locked ∧ endBlockNum ≠ s.LockedSprintNumber then
    if endBlockNum < s.LockedSprintNumber then
      (false, s)
    else
      let s1 := { UnlockSprint s s.LockedSprintNumber with Locked := false }
      (true, { s1 with LockedSprintNumber := endBlockNum })
  else
    (true, { s with LockedSprintNumber := endBlockNum })

/-- `milestone.UnlockMutex`: set `Locked := Locked || doLock`; when confirming, record
the end hash and add the milestone id; persist the lock field unconditionally. -/
def UnlockMutex (s : MilestoneState) (doLock : Bool) (milestoneId : String)
    (endBlockHash : Nat) : MilestoneState :=
  let s1 := { s with Locked := s.Locked || doLock }
  let s2 :=
    if doLock then
      { s1 with LockedSprintHash := endBlockHash,
                LockedMilestoneIDs := insert milestoneId s1.LockedMilestoneIDs }
    else s1
  { s2 with db := WriteLockField s2.db s2.Locked s2.LockedSprintNumber
                    s2.LockedSprintHash s2.LockedMilestoneIDs }

/-- `milestone.RemoveMilestoneID`: delete the id; when the set becomes empty, clear
`Locked`; persist the lock field. -/
def RemoveMilestoneID (s : MilestoneState) (milestoneId : String) : MilestoneState :=
  let s1 := { s with LockedMilestoneIDs := s.LockedMilestoneIDs.erase milestoneId }
  let s2 := if s1.LockedMilestoneIDs = ∅ then { s1 with Locked := false } else s1
  { s2 with db := WriteLockField s2.db s2.Locked s2.LockedSprintNumber
                    s2.LockedSprintHash s2.LockedMilestoneIDs }

/-- Modelled from the spec: the embedded finality type's `Process` method, whose body
is not under src/ (only its milestone-level caller is).  Per §4.2 it updates the
in-memory record to `(block, hash)` and persists it via the persistence layer; having a
processed confirmation is what makes a finalized record exist (`doExist`).  The
observability counter is fire-and-forget and not modelled. -/
def finalityProcess (s : MilestoneState) (block : Nat) (hash : Nat) : MilestoneState :=
  { s with doExist := true, Number := block, Hash := hash,
           db := WriteLastFinality s.db FinalityVariant.milestone block hash }

/-- `milestone.Process`: return unchanged when `block` equals the current finalized
height; otherwise apply the base `Process` and then `UnlockSprint block`. -/
def Process (s : MilestoneState) (block : Nat) (hash : Nat) : MilestoneState :=
  if s.Number = block then s
  else UnlockSprint (finalityProcess s block hash) block

/-- `milestone.IsReorgAllowed`: the source indexes `chain[len(chain)-1]` with no
emptiness guard, so the embedding returns `none` exactly where the source would panic.
Otherwise: reject when the last height is at or below the locked sprint number, else
scan for the first block at exactly the locked height and compare hashes; allow when
the locked height is absent from the chain. -/
def IsReorgAllowed (chain : List Header) (lockedSprintNumber : Nat)
    (lockedSprintHash : Nat) : Option Bool :=
  match chain.getLast? with
  | none => none
  | some last =>
    if last.number ≤ lockedSprintNumber then
      some false
    else
      match chain.find? (fun h => h.number == lockedSprintNumber) with
      | some h => some (h.hash == lockedSprintHash)
      | none => some true

/-- `milestone.IsValidChain`: permissive when the administrative `flags.Milestone` is
off; otherwise require the base finality check (the embedded finality type's
`IsValidChain`, not under src/, taken here as an arbitrary function `base`), and, when
`Locked`, additionally `IsReorgAllowed` at the locked boundary.  `none` propagates the
panic of `IsReorgAllowed` on an empty chain. -/
def IsValidChain (flagMilestone : Bool) (base : Header → List Header → Bool)
    (s : MilestoneState) (currentHeader : Header) (chain : List Header) : Option Bool :=
  if !flagMilestone then
    some true
  else if !(base currentHeader chain) then
    some false
  else if s.Locked then
    match IsReorgAllowed chain s.LockedSprintNumber s.LockedSprintHash with
    | none => none
    | some allowed => if !allowed then some false else some true
  else
    some true

/-- The sprint-lock invariant of §3: the identifier set is empty whenever the guard is
not locked. -/
def LockInv (s : MilestoneState) : Prop :=
  s.Locked = false → s.LockedMilestoneIDs = ∅

/-! Concrete states used by the witnesses. -/

/-- A guard locked at boundary `(100, 7)` with one contributing identifier. -/
def sLockedA : MilestoneState :=
  { doExist := true, Number := 50, Hash := 3, LockedSprintNumber := 100,
    LockedSprintHash := 7, Locked := true, LockedMilestoneIDs := {"m1"}, db := [] }

/-! Helper lemmas, shared across the development. -/

theorem unlockSprint_of_lt (s : MilestoneState) (e : Nat) (h : e < s.LockedSprintNumber) :
    UnlockSprint s e = s := by
  simp [UnlockSprint, h]

theorem unlockSprint_of_ge (s : MilestoneState) (e : Nat) (h : s.LockedSprintNumber ≤ e) :
    UnlockSprint s e =
      { s with Locked := false, LockedMilestoneIDs := ∅,
               db := WriteLockField s.db false s.LockedSprintNumber s.LockedSprintHash ∅ } := by
  simp [UnlockSprint, purgeMilestoneIDsList, Nat.not_lt.mpr h]

theorem lockInv_unlockSprint (s : MilestoneState) (e : Nat) (h : LockInv s) :
    LockInv (UnlockSprint s e) := by
  by_cases hlt : e < s.LockedSprintNumber
  · rw [unlockSprint_of_lt s e hlt]; exact h
  · rw [unlockSprint_of_ge s e (Nat.le_of_not_lt hlt)]
    intro _
    rfl

/-! Theorems. -/

/-- C2: on a non-empty chain, `IsReorgAllowed` returns `false` when the chain's last
height is at or below the locked number; returns `true` when no block of the chain has
the locked height; and when the chain has a (unique) block at exactly the locked
height, returns true iff that block's hash equals the locked hash. -/
theorem isReorgAllowed_spec (chain : List Header) (n hsh : Nat) (last : Header)
    (hl : chain.getLast? = some last) :
    (last.number ≤ n → IsReorgAllowed chain n hsh = some false) ∧
    (n < last.number → (∀ b ∈ chain, b.number ≠ n) →
       IsReorgAllowed chain n hsh = some true) ∧
    (n < last.number → ∀ b ∈ chain, b.number = n →
       (∀ c ∈ chain, c.number = n → c = b) →
       IsReorgAllowed chain n hsh = some (b.hash == hsh)) := by
  refine ⟨?_, ?_, ?_⟩
  · intro hle
    simp [IsReorgAllowed, hl, hle]
  · intro hlt hnone
    have hf : chain.find? (fun h => h.number == n) = none := by
      rw [List.find?_eq_none]
      intro x hx
      simpa using hnone x hx
    simp [IsReorgAllowed, hl, hf, Nat.not_le.mpr hlt]
  · intro hlt b hb hbn huniq
    have hsome : (chain.find? (fun h => h.number == n)).isSome := by
      rw [List.find?_isSome]
      exact ⟨b, hb, by simpa using hbn⟩
    obtain ⟨c, hc⟩ := Option.isSome_iff_exists.mp hsome
    have hcmem := List.mem_of_find?_eq_some hc
    have hcn : c.number = n := by simpa using List.find?_some hc
    have hcb : c = b := huniq c hcmem hcn
    simp [IsReorgAllowed, hl, Nat.not_le.mpr hlt, hc, hcb]

/-- C2 witness: the boundary `(100, 7)` and a chain through `(100, 7)` ending at 150. -/
theorem isReorgAllowed_spec_witness :
    IsReorgAllowed [⟨100, 7⟩, ⟨150, 9⟩] 100 7 = some ((Header.mk 100 7).hash == 7) :=
  (isReorgAllowed_spec [⟨100, 7⟩, ⟨150, 9⟩] 100 7 ⟨150, 9⟩ (by decide)).2.2
    (by decide) ⟨100, 7⟩ (by decide) (by decide) (by decide)

/-- C1: on a non-empty candidate chain, the milestone variant's `IsValidChain` is
`true` when the administrative flag is off, and otherwise is `true` iff the base
finality check passes and either the guard is not locked or `IsReorgAllowed` at the
locked boundary allows the reorg. -/
theorem isValidChain_milestone_spec (flag : Bool) (base : Header → List Header → Bool)
    (s : MilestoneState) (cur : Header) (chain : List Header) (hne : chain ≠ []) :
    ∃ allowed, IsReorgAllowed chain s.LockedSprintNumber s.LockedSprintHash = some allowed ∧
      IsValidChain flag base s cur chain =
        some (!flag || (base cur chain && (!s.Locked || allowed))) := by
  obtain ⟨last, hl⟩ := Option.isSome_iff_exists.mp (List.getLast?_isSome.mpr hne)
  have hR : ∃ r, IsReorgAllowed chain s.LockedSprintNumber s.LockedSprintHash = some r := by
    by_cases hle : last.number ≤ s.LockedSprintNumber
    · exact ⟨false, by simp [IsReorgAllowed, hl, hle]⟩
    · cases hf : chain.find? (fun h => h.number == s.LockedSprintNumber) with
      | none => exact ⟨true, by simp [IsReorgAllowed, hl, hle, hf]⟩
      | some c => exact ⟨c.hash == s.LockedSprintHash, by simp [IsReorgAllowed, hl, hle, hf]⟩
  obtain ⟨r, hr⟩ := hR
  refine ⟨r, hr, ?_⟩
  unfold IsValidChain
  cases flag with
  | false => simp
  | true =>
    cases hbase : base cur chain with
    | false => simp [hbase]
    | true =>
      cases hlock : s.Locked with
      | false => simp [hbase, hlock]
      | true =>
        cases r with
        | false => simp [hbase, hlock, hr]
        | true => simp [hbase, hlock, hr]

/-- C1 witness: flag on, permissive base check, guard locked at `(100, 7)`, chain
through `(100, 7)` ending at 150. -/
theorem isValidChain_milestone_spec_witness :
    ∃ allowed, IsReorgAllowed ([⟨100, 7⟩, ⟨150, 9⟩] : List Header)
        sLockedA.LockedSprintNumber sLockedA.LockedSprintHash = some allowed ∧
      IsValidChain true (fun _ _ => true) sLockedA ⟨0, 0⟩
          ([⟨100, 7⟩, ⟨150, 9⟩] : List Header) =
        some (!true || ((fun _ _ => true) (Header.mk 0 0)
          ([⟨100, 7⟩, ⟨150, 9⟩] : List Header) && (!sLockedA.Locked || allowed))) :=
  isValidChain_milestone_spec true (fun _ _ => true) sLockedA ⟨0, 0⟩
    ([⟨100, 7⟩, ⟨150, 9⟩] : List Header) (by decide)

/-- C9: `IsReorgAllowed` on the empty chain is the panic case (`none` in the total
embedding); on any non-empty chain it is defined (`some`); and the public
`IsValidChain`, with the flag on, the base check passing and the guard locked, hits
the panic on the empty chain rather than guarding against it. -/
theorem isReorgAllowed_empty_panic (n hsh : Nat) (chain : List Header)
    (base : Header → List Header → Bool) (s : MilestoneState) (cur : Header)
    (hne : chain ≠ []) (hlock : s.Locked = true) (hbase : base cur [] = true) :
    IsReorgAllowed ([] : List Header) n hsh = none ∧
    (∃ b, IsReorgAllowed chain n hsh = some b) ∧
    IsValidChain true base s cur [] = none := by
  refine ⟨rfl, ?_, ?_⟩
  · obtain ⟨last, hl⟩ := Option.isSome_iff_exists.mp (List.getLast?_isSome.mpr hne)
    by_cases hle : last.number ≤ n
    · exact ⟨false, by simp [IsReorgAllowed, hl, hle]⟩
    · cases hf : chain.find? (fun h => h.number == n) with
      | none => exact ⟨true, by simp [IsReorgAllowed, hl, hle, hf]⟩
      | some c => exact ⟨c.hash == hsh, by simp [IsReorgAllowed, hl, hle, hf]⟩
  · simp [IsValidChain, hbase, hlock, IsReorgAllowed]

/-- C9 witness: the locked state `(100, 7)` with a concrete singleton chain. -/
theorem isReorgAllowed_empty_panic_witness :
    IsReorgAllowed ([] : List Header) 100 7 = none ∧
    (∃ b, IsReorgAllowed [⟨150, 9⟩] 100 7 = some b) ∧
    IsValidChain true (fun _ _ => true) sLockedA ⟨0, 0⟩ [] = none :=
  isReorgAllowed_empty_panic 100 7 [⟨150, 9⟩] (fun _ _ => true) sLockedA ⟨0, 0⟩
    (by decide) (by decide) rfl

/-- C3: `LockMutex` rejects a candidate at or below an existing finalized record;
when locked, it rejects a candidate below the locked number; when locked at a lower
number and not rejected by the finalized-record check, it first clears the old lock
exactly as `UnlockSprint` at the old boundary would, then adopts the candidate; and
every accepting path adopts the candidate as the locked sprint number. -/
theorem lockMutex_spec (s : MilestoneState) (endBlockNum : Nat) :
    (s.doExist = true → endBlockNum ≤ s.Number → LockMutex s endBlockNum = (false, s)) ∧
    (s.Locked = true → endBlockNum < s.LockedSprintNumber →
       (LockMutex s endBlockNum).1 = false) ∧
    (¬(s.doExist = true ∧ endBlockNum ≤ s.Number) → s.Locked = true →
       s.LockedSprintNumber < endBlockNum →
       LockMutex s endBlockNum =
         (true, { UnlockSprint s s.LockedSprintNumber with
                    LockedSprintNumber := endBlockNum })) ∧
    ((LockMutex s endBlockNum).1 = true →
       (LockMutex s endBlockNum).2.LockedSprintNumber = endBlockNum) := by
  refine ⟨?_, ?_, ?_, ?_⟩
  · intro hde hle
    simp [LockMutex, hde, hle]
  · intro hlock hlt
    unfold LockMutex
    split_ifs with h1 h2
    · rfl
    · rfl
    · exact absurd ⟨hlock, Nat.ne_of_lt hlt⟩ h2
  · intro hnA hlock hlt
    unfold LockMutex
    split_ifs with h1 h2
    · exact absurd h2 (by omega)
    · rw [unlockSprint_of_ge s s.LockedSprintNumber (Nat.le_refl _)]
    · exact absurd ⟨hlock, ne_of_gt hlt⟩ h1
  · intro htrue
    unfold LockMutex at htrue ⊢
    split_ifs at htrue ⊢ <;> rfl

/-- C3 witness: locked at 100 with finalized height 50; a fresh candidate at 150 is
accepted after clearing the old lock. -/
theorem lockMutex_spec_witness :
    LockMutex sLockedA 150 =
      (true, { UnlockSprint sLockedA sLockedA.LockedSprintNumber with
                 LockedSprintNumber := 150 }) :=
  (lockMutex_spec sLockedA 150).2.2.1 (by decide) (by decide) (by decide)

/-- C4: `Process` is a no-op when the block equals the finalized height, whatever the
hash; for any other block — above or below the current height — it sets the record to
`(block, hash)` and then unlocks any sprint whose boundary is at or below the block,
leaving the lock fields alone when the boundary is above the block. -/
theorem process_spec (s : MilestoneState) (block hash : Nat) :
    (block = s.Number → Process s block hash = s) ∧
    (block ≠ s.Number →
       (Process s block hash).Number = block ∧
       (Process s block hash).Hash = hash ∧
       (s.LockedSprintNumber ≤ block →
          (Process s block hash).Locked = false ∧
          (Process s block hash).LockedMilestoneIDs = ∅) ∧
       (block < s.LockedSprintNumber →
          (Process s block hash).Locked = s.Locked ∧
          (Process s block hash).LockedMilestoneIDs = s.LockedMilestoneIDs)) := by
  constructor
  · intro h
    simp [Process, h]
  · intro hne
    have hcond : ¬ s.Number = block := fun h => hne h.symm
    have hP : Process s block hash = UnlockSprint (finalityProcess s block hash) block := by
      simp [Process, hcond]
    by_cases hlt : block < s.LockedSprintNumber
    · have hU : UnlockSprint (finalityProcess s block hash) block =
          finalityProcess s block hash := unlockSprint_of_lt _ _ hlt
      rw [hP, hU]
      refine ⟨rfl, rfl, ?_, fun _ => ⟨rfl, rfl⟩⟩
      intro hle
      omega
    · have hge : s.LockedSprintNumber ≤ block := Nat.le_of_not_lt hlt
      have hU := unlockSprint_of_ge (finalityProcess s block hash) block hge
      rw [hP, hU]
      refine ⟨rfl, rfl, fun _ => ⟨rfl, rfl⟩, ?_⟩
      intro hlt2
      omega

/-- C4 witness: processing block 40 below the finalized height 50 of `sLockedA` still
rewrites the record (no monotonicity on write) and leaves the lock at 100 alone. -/
theorem process_spec_witness :
    (Process sLockedA 40 11).Number = 40 ∧
    (Process sLockedA 40 11).Hash = 11 ∧
    (sLockedA.LockedSprintNumber ≤ 40 →
       (Process sLockedA 40 11).Locked = false ∧
       (Process sLockedA 40 11).LockedMilestoneIDs = ∅) ∧
    (40 < sLockedA.LockedSprintNumber →
       (Process sLockedA 40 11).Locked = sLockedA.Locked ∧
       (Process sLockedA 40 11).LockedMilestoneIDs = sLockedA.LockedMilestoneIDs) :=
  (process_spec sLockedA 40 11).2 (by decide)

/-- C5: the invariant "the identifier set is empty whenever the guard is not locked"
is preserved by every guard operation, and removing the last remaining identifier
clears the lock. -/
theorem lockInv_preserved (s : MilestoneState) (inv : LockInv s)
    (endBlockNum blockNum hashV endBlockHash : Nat) (doLock : Bool)
    (milestoneId : String) :
    LockInv (LockMutex s endBlockNum).2 ∧
    LockInv (UnlockMutex s doLock milestoneId endBlockHash) ∧
    LockInv (UnlockSprint s endBlockNum) ∧
    LockInv (RemoveMilestoneID s milestoneId) ∧
    LockInv (Process s blockNum hashV) ∧
    (s.LockedMilestoneIDs = {milestoneId} →
       (RemoveMilestoneID s milestoneId).Locked = false) := by
  refine ⟨?_, ?_, ?_, ?_, ?_, ?_⟩
  · unfold LockMutex
    split_ifs with h1 h2 h3
    · exact inv
    · exact inv
    · intro _
      rw [unlockSprint_of_ge s s.LockedSprintNumber (Nat.le_refl _)]
    · exact inv
  · unfold LockInv UnlockMutex
    cases doLock with
    | true =>
      intro h
      simp at h
    | false =>
      intro h
      exact inv (by simpa using h)
  · exact lockInv_unlockSprint s endBlockNum inv
  · by_cases he : s.LockedMilestoneIDs.erase milestoneId = ∅
    · intro _
      simp [RemoveMilestoneID, he]
    · intro h
      have hL : s.Locked = false := by simpa [RemoveMilestoneID, he] using h
      exact absurd (by simp [inv hL]) he
  · unfold Process
    split
    · exact inv
    · exact lockInv_unlockSprint _ _ inv
  · intro hset
    have he : s.LockedMilestoneIDs.erase milestoneId = ∅ := by
      rw [hset]
      simp
    simp [RemoveMilestoneID, he]

/-- C5 witness: the invariant holds for `sLockedA` and survives a lock hand-off at
150; removing the only identifier `m1` clears the lock. -/
theorem lockInv_preserved_witness :
    LockInv (LockMutex sLockedA 150).2 ∧
    (RemoveMilestoneID sLockedA "m1").Locked = false :=
  ⟨(lockInv_preserved sLockedA (by unfold LockInv; decide) 150 40 11 7 true "m1").1,
   (lockInv_preserved sLockedA (by unfold LockInv; decide) 150 40 11 7 true "m1").2.2.2.2.2
     (by decide)⟩

/-- C6: after `UnlockMutex`, the lock flag is the old flag or-ed with `doLock`; a
confirming round records the end hash and its identifier; and the resulting lock field
is persisted on top of the old store in every path. -/
theorem unlockMutex_spec (s : MilestoneState) (doLock : Bool) (milestoneId : String)
    (endBlockHash : Nat) :
    (UnlockMutex s doLock milestoneId endBlockHash).Locked = (s.Locked || doLock) ∧
    (doLock = true →
       (UnlockMutex s doLock milestoneId endBlockHash).LockedSprintHash = endBlockHash ∧
       milestoneId ∈ (UnlockMutex s doLock milestoneId endBlockHash).LockedMilestoneIDs) ∧
    (UnlockMutex s doLock milestoneId endBlockHash).db =
      ("LockField",
        StoreVal.lockEnc (UnlockMutex s doLock milestoneId endBlockHash).Locked
          (UnlockMutex s doLock milestoneId endBlockHash).LockedSprintNumber
          (UnlockMutex s doLock milestoneId endBlockHash).LockedSprintHash
          (UnlockMutex s doLock milestoneId endBlockHash).LockedMilestoneIDs) :: s.db := by
  cases doLock <;> simp [UnlockMutex, WriteLockField, storePut]

/-- C6 witness: a confirming round on `sLockedA` with id `m2` and end hash 9. -/
theorem unlockMutex_spec_witness :
    (UnlockMutex sLockedA true "m2" 9).Locked = (sLockedA.Locked || true) ∧
    (UnlockMutex sLockedA true "m2" 9).LockedSprintHash = 9 ∧
    "m2" ∈ (UnlockMutex sLockedA true "m2" 9).LockedMilestoneIDs :=
  ⟨(unlockMutex_spec sLockedA true "m2" 9).1,
   ((unlockMutex_spec sLockedA true "m2" 9).2.1 rfl).1,
   ((unlockMutex_spec sLockedA true "m2" 9).2.1 rfl).2⟩

/-- C7: `UnlockSprint` below the locked number leaves the state entirely unchanged;
at or above it, it clears the lock flag, empties the identifier set, and persists
the lock field. -/
theorem unlockSprint_spec (s : MilestoneState) (endBlockNum : Nat) :
    (endBlockNum < s.LockedSprintNumber → UnlockSprint s endBlockNum = s) ∧
    (s.LockedSprintNumber ≤ endBlockNum →
       (UnlockSprint s endBlockNum).Locked = false ∧
       (UnlockSprint s endBlockNum).LockedMilestoneIDs = ∅ ∧
       (UnlockSprint s endBlockNum).db =
         ("LockField",
           StoreVal.lockEnc false s.LockedSprintNumber s.LockedSprintHash ∅) :: s.db) := by
  constructor
  · intro hlt
    exact unlockSprint_of_lt s endBlockNum hlt
  · intro hge
    rw [unlockSprint_of_ge s endBlockNum hge]
    exact ⟨rfl, rfl, rfl⟩

/-- C7 witness: `UnlockSprint 90` on the guard locked at 100 is a no-op;
`UnlockSprint 150` clears the lock, empties the set and persists. -/
theorem unlockSprint_spec_witness :
    UnlockSprint sLockedA 90 = sLockedA ∧
    ((UnlockSprint sLockedA 150).Locked = false ∧
     (UnlockSprint sLockedA 150).LockedMilestoneIDs = ∅ ∧
     (UnlockSprint sLockedA 150).db =
       ("LockField",
         StoreVal.lockEnc false sLockedA.LockedSprintNumber
           sLockedA.LockedSprintHash ∅) :: sLockedA.db) :=
  ⟨(unlockSprint_spec sLockedA 90).1 (by decide),
   (unlockSprint_spec sLockedA 150).2 (by decide)⟩

/-- C8: writing a finality record and reading it back through the variant's fixed key
round-trips exactly; reading an absent or empty key fails with a NotFound-class
error; reading undecodable bytes fails with the corrupt error. -/
theorem readFinality_spec (db : Store) (v : FinalityVariant) (n h : Nat) :
    ReadFinality (WriteLastFinality db v n h) v = Except.ok (n, h) ∧
    (storeGet db (variantKey v) = none →
       ∃ e, ReadFinality db v = Except.error e ∧ e.isNotFoundClass = true) ∧
    (storeGet db (variantKey v) = some StoreVal.empty →
       ∃ e, ReadFinality db v = Except.error e ∧ e.isNotFoundClass = true) ∧
    (storeGet db (variantKey v) = some StoreVal.garbage →
       ReadFinality db v = Except.error ReadError.corrupt) := by
  refine ⟨?_, ?_, ?_, ?_⟩
  · simp [ReadFinality, WriteLastFinality, storePut, storeGet]
  · intro h0
    exact ⟨.notFound, by simp [ReadFinality, h0], rfl⟩
  · intro h0
    exact ⟨.emptyValue, by simp [ReadFinality, h0], rfl⟩
  · intro h0
    simp [ReadFinality, h0]

/-- C8 witness: write `(5, 9)` to the empty store and read it back; a read against
the empty store is NotFound-class. -/
theorem readFinality_spec_witness :
    ReadFinality (WriteLastFinality [] FinalityVariant.milestone 5 9)
      FinalityVariant.milestone = Except.ok (5, 9) ∧
    (∃ e, ReadFinality [] FinalityVariant.milestone = Except.error e ∧
       e.isNotFoundClass = true) :=
  ⟨(readFinality_spec [] FinalityVariant.milestone 5 9).1,
   (readFinality_spec [] FinalityVariant.milestone 5 9).2.1 rfl⟩

/-- C10: clearing a sprint lock touches only the lock flag and the identifier set:
`UnlockSprint` and `Process` leave the locked sprint number and hash unchanged, and
`LockMutex` leaves the locked sprint hash unchanged; after a clearing `UnlockSprint`,
a later `UnlockSprint` below the stale boundary is still a no-op even though nothing
is locked; and the stale number and hash are what the clearing path persists. -/
theorem unlock_frame_spec (s : MilestoneState)
    (endBlockNum blockNum hashV endBlockNum2 : Nat) :
    (UnlockSprint s endBlockNum).LockedSprintNumber = s.LockedSprintNumber ∧
    (UnlockSprint s endBlockNum).LockedSprintHash = s.LockedSprintHash ∧
    (Process s blockNum hashV).LockedSprintNumber = s.LockedSprintNumber ∧
    (Process s blockNum hashV).LockedSprintHash = s.LockedSprintHash ∧
    (LockMutex s endBlockNum).2.LockedSprintHash = s.LockedSprintHash ∧
    (s.LockedSprintNumber ≤ endBlockNum → endBlockNum2 < s.LockedSprintNumber →
       (UnlockSprint s endBlockNum).Locked = false ∧
       UnlockSprint (UnlockSprint s endBlockNum) endBlockNum2 =
         UnlockSprint s endBlockNum) ∧
    (s.LockedSprintNumber ≤ endBlockNum →
       storeGet (UnlockSprint s endBlockNum).db "LockField" =
         some (StoreVal.lockEnc false s.LockedSprintNumber s.LockedSprintHash ∅)) := by
  have hUS : ∀ e : Nat, (UnlockSprint s e).LockedSprintNumber = s.LockedSprintNumber ∧
      (UnlockSprint s e).LockedSprintHash = s.LockedSprintHash := by
    intro e
    by_cases hlt : e < s.LockedSprintNumber
    · rw [unlockSprint_of_lt s e hlt]
      exact ⟨rfl, rfl⟩
    · rw [unlockSprint_of_ge s e (Nat.le_of_not_lt hlt)]
      exact ⟨rfl, rfl⟩
  refine ⟨(hUS endBlockNum).1, (hUS endBlockNum).2, ?_, ?_, ?_, ?_, ?_⟩
  · unfold Process
    split
    · rfl
    · by_cases hlt : blockNum < s.LockedSprintNumber
      · rw [unlockSprint_of_lt (finalityProcess s blockNum hashV) blockNum hlt]
        rfl
      · rw [unlockSprint_of_ge (finalityProcess s blockNum hashV) blockNum
          (Nat.le_of_not_lt hlt)]
        rfl
  · unfold Process
    split
    · rfl
    · by_cases hlt : blockNum < s.LockedSprintNumber
      · rw [unlockSprint_of_lt (finalityProcess s blockNum hashV) blockNum hlt]
        rfl
      · rw [unlockSprint_of_ge (finalityProcess s blockNum hashV) blockNum
          (Nat.le_of_not_lt hlt)]
        rfl
  · unfold LockMutex
    split_ifs with h1 h2 h3
    · rfl
    · rfl
    · rw [unlockSprint_of_ge s s.LockedSprintNumber (Nat.le_refl _)]
    · rfl
  · intro hge hlt2
    rw [unlockSprint_of_ge s endBlockNum hge]
    refine ⟨rfl, ?_⟩
    exact unlockSprint_of_lt _ _ hlt2
  · intro hge
    rw [unlockSprint_of_ge s endBlockNum hge]
    simp [WriteLockField, storePut, storeGet]

/-- C10 witness: clearing `sLockedA` at 150 keeps the stale boundary `(100, 7)`, so a
later `UnlockSprint 90` is still a no-op, and `(100, 7)` is what was persisted. -/
theorem unlock_frame_spec_witness :
    ((UnlockSprint sLockedA 150).Locked = false ∧
     UnlockSprint (UnlockSprint sLockedA 150) 90 = UnlockSprint sLockedA 150) ∧
    storeGet (UnlockSprint sLockedA 150).db "LockField" =
      some (StoreVal.lockEnc false sLockedA.LockedSprintNumber
        sLockedA.LockedSprintHash ∅) :=
  ⟨(unlock_frame_spec sLockedA 150 40 11 90).2.2.2.2.2.1 (by decide) (by decide),
   (unlock_frame_spec sLockedA 150 40 11 90).2.2.2.2.2.2 (by decide)⟩

end Bor
